import Mathlib

/-!
# Order Lifecycle & Archive Engine — verification of `src/App.jsx`

Shallow embedding of the order-management core of the repository
`Abdurehman420/order-manage` (single source file `src/App.jsx`).

Modelling conventions:
* JS strings are Lean `String`s (with `List Char` views where induction is
  needed); JS numbers used as money are `ℚ`; quantities are `ℕ`.
* Timestamps (`createdAt`, `completedAt`, produced by `new Date().toISOString()`)
  are abstract instants modelled as `ℕ`; the comparison
  `new Date(b.createdAt) - new Date(a.createdAt)` is order-isomorphic to
  comparison of these instants.  Date formatting functions from `date-fns`
  (`format(d, "yyyy-MM-dd")`, `format(d, "PPpp")`) are external collaborators
  and are passed in as abstract function parameters.
* React `setState` updaters are modelled as pure state transformers on an
  explicit application state (`AppState` / `UIState`).
-/

/-- An order line, as assembled by `CreateOrderModal` (`{ ...menuItem, qty }`):
the menu item's `id`, `name`, `price` plus a quantity. -/
structure OrderItem where
  id : String
  name : String
  price : ℚ
  qty : Nat
deriving DecidableEq, Repr

/-- Delivery details (`{ name, phone, address, note }`). -/
structure Delivery where
  name : String
  phone : String
  address : String
  note : String
deriving DecidableEq, Repr

/-- A live order.  `type`, `status` are the string enums used by the source
(`"Dine-in" | "Takeaway" | "Delivery"`, `"Pending" | "Preparing" | "Ready" |
"Delivered" | "Canceled"`).  `paymentType` is `""` when absent (JS falsy). -/
structure Order where
  id : String
  customer : String
  type : String
  items : List OrderItem
  status : String
  assigned : String
  createdAt : Nat
  delivery : Option Delivery
  paymentType : String
deriving DecidableEq, Repr

/-- A completion-archive record: `{ ...order, completedAt }` as built by
`addCompleted`.  The `extends` models the object spread: the record carries an
independent copy of every order field plus the completion instant. -/
structure CompletedRecord extends Order where
  completedAt : Nat
deriving DecidableEq, Repr

/-- The authoritative application state: the live `orders` array and the
persisted `completedOrders` array (both newest-first). -/
structure AppState where
  orders : List Order
  completed : List CompletedRecord
deriving DecidableEq, Repr

/-- `addCompleted(order)` (App.jsx 73–80): prepend `{ ...order, completedAt:
new Date().toISOString() }` unless a record with the same `id` already exists
(`prev.some((o) => o.id === order.id)`), in which case the archive is returned
unchanged. -/
def addCompleted (order : Order) (nowT : Nat)
    (prev : List CompletedRecord) : List CompletedRecord :=
  if prev.any (fun o => o.id == order.id) then prev
  else { toOrder := order, completedAt := nowT } :: prev

/-- `removeCompleted(id)` (App.jsx 82–84): filter the archive by
`o.id !== id`.  Only the `completedOrders` state is touched. -/
def removeCompleted (i : String) (st : AppState) : AppState :=
  { st with completed := st.completed.filter (fun o => o.id != i) }

/-- `clearCompleted()` (App.jsx 86–90), on the confirmed path: the archive
becomes `[]`; live orders untouched. -/
def clearCompleted (st : AppState) : AppState :=
  { st with completed := [] }

/-- `removeCompletedDay(dayKey)` (App.jsx 97–100): keep exactly the records
whose `getDayKey(o.completedAt)` differs from `dayKey`.  `getDayKey`
(App.jsx 92–95, `format(new Date(t), "yyyy-MM-dd")`) is the abstract
local-date formatter `dayKeyF`. -/
def removeCompletedDay (dayKeyF : Nat → String) (dayKey : String)
    (st : AppState) : AppState :=
  { st with completed := st.completed.filter (fun o => dayKeyF o.completedAt != dayKey) }

/-- `upsertOrder(order)` (App.jsx 134–152): if no live order has the same id
(`findIndex === -1`), prepend it and archive it when its status is
`"Delivered"`; otherwise replace the order at the found index wholesale and
archive when the previous status differs from the new one and the new one is
`"Delivered"`. -/
def upsertOrder (order : Order) (nowT : Nat) (st : AppState) : AppState :=
  match st.orders.findIdx? (fun o => o.id == order.id) with
  | none =>
      { orders := order :: st.orders,
        completed :=
          if order.status == "Delivered" then addCompleted order nowT st.completed
          else st.completed }
  | some idx =>
      let prev := st.orders.get? idx
      { orders := st.orders.set idx order,
        completed :=
          if prev.map Order.status ≠ some order.status ∧ order.status == "Delivered"
          then addCompleted order nowT st.completed
          else st.completed }

/-- `onUpdate(id, patch)` (App.jsx 488–499): map `{ ...o, ...patch }` over the
matching orders (the field merge is the abstract patch function `p`), and if
the first matching order's status changed to `"Delivered"`, archive the
patched order. -/
def patchOrder (i : String) (p : Order → Order) (nowT : Nat)
    (st : AppState) : AppState :=
  let before := st.orders.find? (fun o => o.id == i)
  let next := st.orders.map (fun o => if o.id == i then p o else o)
  let after := next.find? (fun o => o.id == i)
  match before, after with
  | some b, some a =>
      if b.status ≠ a.status ∧ a.status == "Delivered"
      then { orders := next, completed := addCompleted a nowT st.completed }
      else { orders := next, completed := st.completed }
  | _, _ => { orders := next, completed := st.completed }

/-- The status-dropdown path (`onUpdate(o.id, { status: s })`, App.jsx 722):
a `patchOrder` whose patch replaces only the status field. -/
def updateStatus (i s : String) (nowT : Nat) (st : AppState) : AppState :=
  patchOrder i (fun o => { o with status := s }) nowT st

/-- `deleteOrder(id)` (App.jsx 154–157): filter the live orders by
`o.id !== id`.  Only the `orders` state is touched. -/
def deleteOrder (i : String) (st : AppState) : AppState :=
  { st with orders := st.orders.filter (fun o => o.id != i) }

/-- The order total `o.items.reduce((s, it) => s + it.qty * it.price, 0)`
as computed identically in `downloadCSV` (216), `printOrder` (251, 277),
`OrdersTable` (711) and `CompletedOrdersList` (1270, 1303). -/
def orderTotal (o : Order) : ℚ :=
  o.items.foldl (fun s it => s + it.qty * it.price) 0

-- ---------- Filters, search, pagination ----------

/-- JS `haystack.includes(needle)`: substring containment on the char view. -/
def strIncludes (s pat : String) : Bool :=
  decide (pat.data <:+: s.data)

/-- The free-text query predicate of `filtered` (App.jsx 170–177): with `q`
already trimmed and lowercased, an empty query passes everything; otherwise
the query must be a substring of the lowercased order id, customer name, or
some lowercased item name. -/
def matchesQuery (q : String) (o : Order) : Bool :=
  if q == "" then true
  else
    strIncludes o.id.toLower q || strIncludes o.customer.toLower q ||
      o.items.any (fun it => strIncludes it.name.toLower q)

/-- `filtered` (App.jsx 165–179): status filter, then type filter, then query
filter, then a stable sort by `createdAt` descending
(`.sort((a, b) => new Date(b.createdAt) - new Date(a.createdAt))`). -/
def filteredOrders (orders : List Order) (statusFilter typeFilter query : String) :
    List Order :=
  let q := query.trim.toLower
  ((((orders.filter
      (fun o => statusFilter == "All" || o.status == statusFilter)).filter
      (fun o => typeFilter == "All" || o.type == typeFilter)).filter
      (matchesQuery q)).mergeSort
      (fun a b => decide (b.createdAt ≤ a.createdAt)))

/-- `perPage = 6` (App.jsx 113). -/
def perPage : Nat := 6

/-- `Math.max(1, Math.ceil(n / perPage))` (App.jsx 181) in natural-number
arithmetic: the ceiling of `n / 6` is `(n + 5) / 6`. -/
def totalPagesOf (n : Nat) : Nat :=
  max 1 ((n + (perPage - 1)) / perPage)

/-- The dashboard UI state: the store state plus the filter/search/pagination
state hooks (App.jsx 102–113). -/
structure UIState extends AppState where
  query : String
  statusFilter : String
  typeFilter : String
  page : Nat
deriving DecidableEq, Repr

/-- The derived `filtered` view of a UI state. -/
def dashFiltered (st : UIState) : List Order :=
  filteredOrders st.orders st.statusFilter st.typeFilter st.query

/-- The derived `totalPages` (App.jsx 181). -/
def dashTotalPages (st : UIState) : Nat :=
  totalPagesOf (dashFiltered st).length

/-- The user interactions that mutate the dashboard state. -/
inductive UIEvent where
  | setQuery (q : String)
  | setStatusFilter (s : String)
  | setTypeFilter (t : String)
  | prevPage
  | nextPage
  | upsert (o : Order) (nowT : Nat)
  | patchStatus (i s : String) (nowT : Nat)
  | deleteOrd (i : String)
  | removeDone (i : String)
  | removeDoneDay (f : Nat → String) (k : String)
  | clearDone

/-- One UI transition.  Search/filter changes also reset the page to 1
(`(setQuery(v), setPage(1))`, App.jsx 453, 462, 472); the Prev/Next buttons
are disabled outside `(1, totalPages)` and otherwise clamp
(`Math.max(1, p - 1)` / `Math.min(totalPages, p + 1)`, App.jsx 509–523);
store events leave the page untouched. -/
def uiStep (e : UIEvent) (st : UIState) : UIState :=
  match e with
  | .setQuery q => { st with query := q, page := 1 }
  | .setStatusFilter s => { st with statusFilter := s, page := 1 }
  | .setTypeFilter t => { st with typeFilter := t, page := 1 }
  | .prevPage =>
      if st.page ≤ 1 then st else { st with page := max 1 (st.page - 1) }
  | .nextPage =>
      if st.page ≥ dashTotalPages st then st
      else { st with page := min (dashTotalPages st) (st.page + 1) }
  | .upsert o t => { st with toAppState := upsertOrder o t st.toAppState }
  | .patchStatus i s t => { st with toAppState := updateStatus i s t st.toAppState }
  | .deleteOrd i => { st with toAppState := deleteOrder i st.toAppState }
  | .removeDone i => { st with toAppState := removeCompleted i st.toAppState }
  | .removeDoneDay f k => { st with toAppState := removeCompletedDay f k st.toAppState }
  | .clearDone => { st with toAppState := clearCompleted st.toAppState }

/-- Run a sequence of UI events. -/
def uiRun (es : List UIEvent) (st : UIState) : UIState :=
  es.foldl (fun acc e => uiStep e acc) st

-- ---------- CSV export ----------

/-- The fixed CSV header names (App.jsx 200–213). -/
def csvHeaders : List String :=
  ["id", "customer", "type", "status", "assigned", "createdAt", "items",
   "total", "delivery_name", "delivery_phone", "delivery_address", "delivery_note"]

/-- `o.items.map((it) => ...).join("; ")` (App.jsx 215): items rendered as
name, space, letter x, quantity, joined by a semicolon and space. -/
def itemsCell (o : Order) : String :=
  String.intercalate "; " (o.items.map (fun it => it.name ++ " x" ++ toString it.qty))

/-- `Number.prototype.toFixed(2)` on the rational money model: round to an
integer number of hundredths and print with exactly two decimal digits. -/
def toFixed2 (q : ℚ) : String :=
  let n : Int := round (q * 100)
  let m : Nat := n.natAbs
  (if n < 0 then "-" else "") ++ toString (m / 100) ++ "." ++
    (if m % 100 < 10 then "0" else "") ++ toString (m % 100)

/-- JS string-valued `a || b`: the empty string is falsy. -/
def jsOr (a b : String) : String :=
  if a == "" then b else a

/-- One raw CSV data row (App.jsx 214–231), before quoting: the fixed column
values, with `o.assigned || ""` and the optional-chained delivery fields
defaulting to the empty string. -/
def csvRow (o : Order) : List String :=
  [o.id, o.customer, o.type, o.status, jsOr o.assigned "", toString o.createdAt,
   itemsCell o, toFixed2 (orderTotal o),
   jsOr ((o.delivery.map Delivery.name).getD "") "",
   jsOr ((o.delivery.map Delivery.phone).getD "") "",
   jsOr ((o.delivery.map Delivery.address).getD "") "",
   jsOr ((o.delivery.map Delivery.note).getD "") ""]

/-- Double every double-quote character: the char-view of
`String(c).replace(/"/g, ...)` with a two-quote replacement (App.jsx 234). -/
def escQuotes : List Char → List Char
  | [] => []
  | c :: cs => if c = '"' then '"' :: '"' :: escQuotes cs else c :: escQuotes cs

/-- One emitted CSV cell (App.jsx 234): the raw value with embedded double
quotes doubled, wrapped in double quotes — applied to every cell
unconditionally. -/
def csvCell (s : String) : String :=
  String.mk ('"' :: (escQuotes s.data ++ ['"']))

/-- One emitted CSV data line: quoted cells joined by commas (App.jsx 234). -/
def csvLine (o : Order) : String :=
  String.intercalate "," ((csvRow o).map csvCell)

/-- `headers.join(",")` (App.jsx 233): the header line, not quoted. -/
def csvHeaderLine : String :=
  String.intercalate "," csvHeaders

/-- The full CSV text (App.jsx 232–235): header line followed by one quoted
line per live order, joined by newlines. -/
def csvText (orders : List Order) : String :=
  String.intercalate "\n" (csvHeaderLine :: orders.map csvLine)

/-- A standard CSV quoted-field reader, consuming the characters after the
opening quote: a doubled quote yields a literal quote, the final quote must
end the input, and an unterminated field fails. -/
def unquoteField : List Char → Option (List Char)
  | [] => none
  | c :: rest =>
    if c = '"' then
      match rest with
      | [] => some []
      | c2 :: rest2 =>
          if c2 = '"' then (unquoteField rest2).map (fun t => '"' :: t)
          else none
    else (unquoteField rest).map (fun t => c :: t)

/-- A standard CSV parser for one complete quoted field: expect an opening
quote, then read per `unquoteField`. -/
def parseCsvField (s : String) : Option String :=
  match s.data with
  | '"' :: rest => (unquoteField rest).map String.mk
  | _ => none

-- ---------- HTML escaping and the printable receipt ----------

/-- Replace every occurrence of the character `c` in `l` by the string `r`:
the char-view of one global-regex `String.prototype.replace` pass. -/
def replaceAllC : List Char → Char → List Char → List Char
  | [], _, _ => []
  | x :: xs, c, r => (if x = c then r else [x]) ++ replaceAllC xs c r

/-- `escapeHtml` (App.jsx 1354–1362): five chained global replaces, ampersand
first.  (The JS falsy guard returns the empty string for empty input, which
coincides with escaping the empty string.) -/
def escapeHtml (s : String) : String :=
  String.mk
    (replaceAllC
      (replaceAllC
        (replaceAllC
          (replaceAllC
            (replaceAllC s.data '&' "&amp;".data)
            '<' "&lt;".data)
          '>' "&gt;".data)
        '"' "&quot;".data)
      '\'' "&#039;".data)

/-- The per-character entity expansion the five replaces amount to. -/
def htmlEntity (c : Char) : List Char :=
  if c = '&' then "&amp;".data
  else if c = '<' then "&lt;".data
  else if c = '>' then "&gt;".data
  else if c = '"' then "&quot;".data
  else if c = '\'' then "&#039;".data
  else [c]

/-- `htmlEntity` mapped over a whole character list. -/
def expandEntities : List Char → List Char
  | [] => []
  | c :: cs => htmlEntity c ++ expandEntities cs

/-- The shop profile (App.jsx 41–48); `logo` is `""` when absent (the
source leaves the field undefined until a file is loaded, and tests it for
truthiness). -/
structure ShopInfo where
  name : String
  address : String
  phone : String
  taxNumber : String
  logo : String
deriving DecidableEq, Repr

/-- `printOrder`, line-item subtotal (App.jsx 277). -/
def subtotalOf (o : Order) : ℚ :=
  o.items.foldl (fun s it => s + it.qty * it.price) 0

/-- `printOrder`, grand total (App.jsx 278): currently the subtotal; the
tax/fee adjustment point is unused. -/
def grandTotalOf (o : Order) : ℚ :=
  subtotalOf o

/-- One line-item row of the receipt table (App.jsx 252–262): escaped item
name; raw numeric quantity, unit price and line total. -/
def lineRow (it : OrderItem) : String :=
  "<tr style=\"font-size:13px\">\n    <td style=\"padding:4px 6px;\">" ++
    escapeHtml it.name ++
    "</td>\n    <td class=\"right\" style=\"padding:2px 3px;\">" ++
    toString it.qty ++
    "</td>\n    <td class=\"right\" style=\"padding:2px 3px;\">" ++
    toString it.price ++
    "</td>\n    <td class=\"right\" style=\"padding:2px 3px;\">" ++
    toString (it.qty * it.price : ℚ) ++
    "</td>\n  </tr>"

/-- `deliverySection` (App.jsx 264–275).  Note: the source computes this
value but never interpolates it into the receipt template — it is dead code,
kept here for fidelity. -/
def deliverySection (o : Order) : String :=
  if o.type == "Delivery" then
    match o.delivery with
    | some d =>
        "\n      <div style=\"margin-top:8px;font-size:13px;\">\n        <strong>Delivery to:</strong><br/>\n        " ++
        escapeHtml (jsOr d.name "") ++ "<br/>\n        " ++
        escapeHtml (jsOr d.phone "") ++ "<br/>\n        " ++
        escapeHtml (jsOr d.address "") ++ "<br/>\n        " ++
        (if d.note != "" then "<em>Note: " ++ escapeHtml d.note ++ "</em>" else "") ++
        "\n      </div>\n    "
    | none => ""
  else ""

/-- The receipt header section up to the logo slot (App.jsx 280–341),
CSS braces written as character escapes. -/
def receiptHead : String :=
  "\n<html>\n<head>\n \n  <meta charset=\"utf-8\" />\n  <style>\n      @page \x7b size: auto; margin: 0mm; \x7d /* allow printer to choose length */\n  html, body \x7b\n    margin: 0;\n    padding: 0;\n    color: #000;\n    -webkit-print-color-adjust: exact;\n    \n    font-size: 12px;\n    line-height: 1.1;\n    height: auto !important;\n  \x7d\n\n    .receipt \x7b\n    width: 300px;        /* change to 240px / 380px if your printer needs it */\n    max-width: 100%;\n    margin: 0 auto;\n    padding: 8px 10px;\n    box-sizing: border-box;\n    display: block;\n    height: auto;\n    filter: none;\n  \x7d\n\n  /* Visual styles */\n  .center \x7b text-align: center; \x7d\n  .muted \x7b color: #000; opacity: 1; font-size: 11px; \x7d\n  .bold \x7b font-weight: 700; \x7d\n  table \x7b width: 100%; border-collapse: collapse; margin-top: 8px; table-layout: fixed; \x7d\n  colgroup col:first-child \x7b width: 57%; \x7d\n  colgroup col:nth-child(2) \x7b width: 13%; \x7d\n  colgroup col:nth-child(3) \x7b width: 15%; \x7d\n  colgroup col:nth-child(4) \x7b width: 15%; \x7d\n  th, td \x7b padding: 4px 6px; vertical-align: top; word-wrap: break-word; \x7d\n  th \x7b font-weight: 700; font-size: 12px; \x7d\n  .right \x7b text-align: right; \x7d\n  hr \x7b border: none; border-top: 1px dashed #000; margin: 8px 0; \x7d\n\n  /* Printing behaviour: avoid breaking rows across pages */\n  table \x7b page-break-inside: auto; \x7d\n  tr    \x7b page-break-inside: avoid; page-break-after: auto; \x7d\n  thead \x7b display: table-header-group; \x7d /* keep header on each printed page */\n  tfoot \x7b display: table-footer-group; \x7d\n      strong\x7b\n        font-size: 13px;\n      \x7d\n  /* Small print-specific tweaks */\n  @media print \x7b\n    body \x7b margin: 0; \x7d\n    .receipt \x7b box-shadow: none; \x7d\n  \x7d\n  </style>\n</head>\n<body>\n  <div class=\"receipt\">\n    <div class=\"center\">\n      \n      "

/-- The logo slot of the receipt (App.jsx 342–346): when a logo is present
it is interpolated RAW (no `escapeHtml`) into the `img src` attribute. -/
def logoBlock (shop : ShopInfo) : String :=
  if shop.logo != "" then
    "<img src=\"" ++ shop.logo ++
      "\" alt=\"logo\" style=\"max-width:140px;height:auto;display:block;margin:0 auto 8px;\" />"
  else ""

/-- The receipt between the logo slot and the subtotal value (App.jsx
347–412): shop identity, order metadata and the line-item table; every
user-supplied text here passes through `escapeHtml`.  The legacy
`order.payment` fallback of line 368 is never set by this application and
collapses to the `"CASH"` default. -/
def receiptMeta (fmtPPpp : Nat → String) (shop : ShopInfo) (order : Order) : String :=
  let lines := String.join (order.items.map lineRow)
  "\n      <div class=\"bold\" style=\"font-size:20px;margin-bottom:2px; font-weight: 700;\">F . H PIZZA BURGER SAUCE</div>\n      <div class=\"bold\" style=\"font-size:14px;margin-bottom:2px;\">Order Confirmation</div>\n      <div class=\"bold\" style=\"font-size:13px;margin-bottom:6px;\">Payment Receipt</div>\n      <div  style=\"text-align:left; margin-top:4px\">\n         <div class=\" \"><strong>Add:</strong> " ++
  escapeHtml (jsOr shop.address "") ++
  "</div>\n      <div class=\" \"><strong>Phone:</strong> " ++
  escapeHtml (jsOr shop.phone "") ++
  "</div>\n      </div>\n   \n    </div>\n\n    <div class=\"spacer\"></div>\n\n    <div style=\"font-size:12px;\">\n      <div><strong>Date:</strong> " ++
  escapeHtml (fmtPPpp order.createdAt) ++
  "</div>\n    </div>\n\n    <div class=\"spacer\"></div>\n\n    <div style=\"font-size:12px;\">\n      <div><strong>Order:</strong> " ++
  escapeHtml order.id ++
  "</div>\n      <div><strong>Order Type:</strong> " ++
  escapeHtml (jsOr order.type "") ++
  "</div>\n      <div><strong>Payment Type:</strong> " ++
  escapeHtml (jsOr order.paymentType "CASH") ++
  "</div>\n      " ++
  (if order.type == "Delivery" ∧ ((order.delivery.map Delivery.address).getD "") ≠ "" then
      "<div><strong>Address:</strong> " ++
        escapeHtml ((order.delivery.map Delivery.address).getD "") ++ "</div>"
    else "") ++
  "\n      " ++
  (match order.delivery with
   | some d =>
      "<div><strong>Customer:</strong> " ++
        escapeHtml (jsOr d.name (jsOr order.customer "")) ++ " " ++
        (if d.phone != "" then " • " ++ escapeHtml d.phone else "") ++
        "</div>"
   | none =>
      "<div><strong>Customer:</strong> " ++ escapeHtml (jsOr order.customer "") ++ "</div>") ++
  "\n      <div><strong>Cashier:</strong> " ++
  escapeHtml (jsOr shop.name "") ++
  "</div>\n    </div>\n\n    <div class=\"spacer\"></div>\n\n    <hr />\n\n    <table>\n      <colgroup>\n        <col style=\"width:52%\">\n        <col style=\"width:12%\">\n        <col style=\"width:18%\">\n        <col style=\"width:18%\">\n      </colgroup>\n      <thead>\n        <tr>\n          <th style=\"text-align:left\">Description</th>\n          <th class=\"right\">QTY</th>\n          <th class=\"right\">Price</th>\n          <th class=\"right\">Total</th>\n        </tr>\n      </thead>\n      <tbody>\n        " ++
  lines ++
  "\n      </tbody>\n    </table>\n\n    <hr />\n\n    <div style=\"display:flex;justify-content:space-between;font-weight:700;margin-top:6px;\">\n      <div class=\"muted\">Subtotal</div>\n      <div class=\"right\">"

/-- The receipt text between the subtotal value and the grand-total value
(App.jsx 413–417). -/
def receiptBetweenTotals : String :=
  "</div>\n    </div>\n\n    <div style=\"display:flex;justify-content:space-between;font-weight:900;margin-top:6px;\">\n      <div class=\"bold\">Total (PKR)</div>\n      <div class=\"right bold\">"

/-- The receipt text after the grand-total value (App.jsx 417–426). -/
def receiptTail : String :=
  "</div>\n    </div>\n\n    <div class=\"spacer\"></div>\n\n    <div class=\"center muted\" style=\"font-size:12px;margin-top:6px;\">Thank you for visiting!</div>\n  </div>\n</body>\n</html>\n"

/-- The printable receipt document produced by `printOrder`
(App.jsx 249–426), assembled from the parts above.  `fmtPPpp` is the
abstract `format(d, "PPpp")` timestamp formatter. -/
def receiptHtml (fmtPPpp : Nat → String) (shop : ShopInfo) (order : Order) : String :=
  receiptHead ++ logoBlock shop ++ receiptMeta fmtPPpp shop order ++
    toFixed2 (subtotalOf order) ++ receiptBetweenTotals ++
    toFixed2 (grandTotalOf order) ++ receiptTail

-- ---------- Completion archive grouping ----------

/-- Lexicographic (code-point) comparison of character lists: the ordering
`localeCompare` induces on the ASCII `yyyy-MM-dd` day keys. -/
def charListLe : List Char → List Char → Bool
  | [], _ => true
  | _ :: _, [] => false
  | a :: as, b :: bs => if a < b then true else if b < a then false else charListLe as bs

/-- String comparison used to sort day keys (`b.localeCompare(a)` uses this
ordering on the ASCII day keys). -/
def strLeB (a b : String) : Bool :=
  charListLe a.data b.data

/-- Strict version of `strLeB` (for a total order, `a < b ↔ ¬ b ≤ a`). -/
def strLtB (a b : String) : Bool :=
  !(strLeB b a)

/-- The `grouped` view of `CompletedOrdersList` (App.jsx 1240–1249): bucket
records by the day key of `completedAt` (same `format(_, "yyyy-MM-dd")` used
by `getDayKey`), then emit one `(day, records)` pair per distinct day, days
sorted descending (`(a, b) => b.localeCompare(a)`), each day holding its
records in traversal order (the JS loop pushes in array order, which is
exactly the filter of the array by that day key). -/
def groupedByDay (dayKeyF : Nat → String) (completed : List CompletedRecord) :
    List (String × List CompletedRecord) :=
  let days :=
    ((completed.map (fun r => dayKeyF r.completedAt)).dedup).mergeSort
      (fun a b => strLeB b a)
  days.map (fun d => (d, completed.filter (fun r => dayKeyF r.completedAt == d)))

/-- `dayTotal` (App.jsx 1269–1271): fold of the per-order item totals over a
day's records. -/
def dayTotal (recs : List CompletedRecord) : ℚ :=
  recs.foldl (fun s o => s + o.items.foldl (fun ss it => ss + it.qty * it.price) 0) 0


-- ---------- Concrete sample data ----------

/-- A concrete dine-in order (the §8 scenario shape: Soup, price 5, qty 2). -/
def sampleOrder : Order :=
  { id := "ord_1", customer := "Ana", type := "Dine-in",
    items := [{ id := "m1", name := "Soup", price := 5, qty := 2 }],
    status := "Pending", assigned := "T1", createdAt := 10, delivery := none,
    paymentType := "" }

/-- A concrete archive record for `sampleOrder`. -/
def sampleRec : CompletedRecord :=
  { toOrder := sampleOrder, completedAt := 5 }

/-- A shop profile whose logo text carries an attribute-breaking payload. -/
def badShop : ShopInfo :=
  { name := "My Restaurant", address := "", phone := "", taxNumber := "",
    logo := "x\"><script>alert(1)</script>" }

/-- A minimal pending dine-in order with a chosen id and creation instant. -/
def mkOrd (i : String) (ts : Nat) : Order :=
  { id := i, customer := "c", type := "Dine-in", items := [], status := "Pending",
    assigned := "", createdAt := ts, delivery := none, paymentType := "" }

/-- The dashboard start state: no orders, empty archive, no filters, page 1. -/
def uiInit : UIState :=
  { orders := [], completed := [], query := "", statusFilter := "All",
    typeFilter := "All", page := 1 }

/-- Seven order creations filling more than one page, a Next click, then one
deletion: the interaction trace refuting unconditional page clamping. -/
def demoEvents : List UIEvent :=
  [.upsert (mkOrd "a" 1) 0, .upsert (mkOrd "b" 2) 0, .upsert (mkOrd "c" 3) 0,
   .upsert (mkOrd "d" 4) 0, .upsert (mkOrd "e" 5) 0, .upsert (mkOrd "f" 6) 0,
   .upsert (mkOrd "g" 7) 0, .nextPage, .deleteOrd "a"]

/-- The dashboard state after the seven creations of `demoEvents`. -/
def demoMid : UIState :=
  { orders := [mkOrd "g" 7, mkOrd "f" 6, mkOrd "e" 5, mkOrd "d" 4, mkOrd "c" 3,
               mkOrd "b" 2, mkOrd "a" 1],
    completed := [], query := "", statusFilter := "All", typeFilter := "All",
    page := 1 }

-- ---------- Helper lemmas ----------

/-- Folding `+ g x` from an accumulator computes the accumulator plus the
sum of the mapped list. -/
theorem foldl_add_map_sum {α : Type} (g : α → ℚ) :
    ∀ (l : List α) (a : ℚ), l.foldl (fun s x => s + g x) a = a + (l.map g).sum := by
  intro l
  induction l with
  | nil => intro a; simp
  | cons x xs ih => intro a; simp [ih, add_assoc]

/-- A middle component of a string concatenation is an infix of the whole,
on the character view. -/
theorem infix_data_middle (a b c : String) : b.data <:+: (a ++ b ++ c).data :=
  ⟨a.data, c.data, by simp⟩

-- ---------- C3 ----------

/-- **C3.** Deleting a live order only filters the active set (the order with
the deleted id leaves, all others stay) and leaves the archive untouched;
conversely `removeCompleted`, `removeCompletedDay` and `clearCompleted`
leave the live orders untouched. -/
theorem delete_and_archive_frame (dayKeyF : Nat → String) (i k : String)
    (st : AppState) (o : Order) :
    (deleteOrder i st).completed = st.completed ∧
    (o ∈ (deleteOrder i st).orders ↔ o ∈ st.orders ∧ o.id ≠ i) ∧
    (removeCompleted i st).orders = st.orders ∧
    (removeCompletedDay dayKeyF k st).orders = st.orders ∧
    (clearCompleted st).orders = st.orders := by
  refine ⟨rfl, ?_, rfl, rfl, rfl⟩
  simp [deleteOrder, List.mem_filter]

-- ---------- C10 ----------

/-- **C10.** The CSV export quotes unconditionally: every data cell is
wrapped in double quotes (first and last character of every emitted cell are
a double quote, whatever the value), while the header line is the bare
comma-joined column names; the full text is the header line followed by one
quoted line per live order. -/
theorem csv_unconditional_quoting (orders : List Order) (v : String) :
    csvHeaderLine =
      "id,customer,type,status,assigned,createdAt,items,total,delivery_name,delivery_phone,delivery_address,delivery_note" ∧
    ('"' ∉ csvHeaderLine.data) ∧
    (csvCell v).data.head? = some '"' ∧
    (csvCell v).data.getLast? = some '"' ∧
    csvText orders = String.intercalate "\n" (csvHeaderLine :: orders.map csvLine) ∧
    csvLine = fun o => String.intercalate "," ((csvRow o).map csvCell) := by
  refine ⟨by decide, by decide, rfl, ?_, rfl, rfl⟩
  show ('"' :: (escQuotes v.data ++ ['"'])).getLast? = some '"'
  rw [show ('"' :: (escQuotes v.data ++ ['"'])) = ('"' :: escQuotes v.data) ++ ['"'] by simp,
    List.getLast?_concat]

-- ---------- C8 ----------

/-- Reading back an escaped cell body followed by the closing quote yields
exactly the original characters. -/
theorem unquoteField_escQuotes (l : List Char) :
    unquoteField (escQuotes l ++ ['"']) = some l := by
  induction l with
  | nil => simp [escQuotes, unquoteField]
  | cons c cs ih =>
    by_cases h : c = '"'
    · subst h
      simp [escQuotes, unquoteField, ih]
    · have step : unquoteField (c :: (escQuotes cs ++ ['"'])) =
          (unquoteField (escQuotes cs ++ ['"'])).map (fun t => c :: t) := by
        rw [unquoteField.eq_def]
        simp [h]
      simp [escQuotes, h, step, ih]

/-- **C8.** CSV quoting round-trips: a standard CSV quoted-field parser
recovers the original string from any emitted cell (in particular one whose
value contains the comma delimiter and a double quote), and the export has
exactly one data row per live order. -/
theorem csv_quoting_roundtrip (s : String) (orders : List Order) :
    parseCsvField (csvCell s) = some s ∧
    (orders.map csvLine).length = orders.length := by
  refine ⟨?_, by simp⟩
  show (unquoteField (escQuotes s.data ++ ['"'])).map String.mk = some s
  rw [unquoteField_escQuotes]
  rfl

-- ---------- C4 ----------

/-- **C4.** The order total is the sum over the lines of quantity times
price; the receipt subtotal and grand total both equal it (the tax/fee
adjustment is unused); the CSV total column is exactly this value rendered
by `toFixed2`; and the rendered receipt carries the grand total rendered by
`toFixed2`. -/
theorem total_formula_and_renders (o : Order) (fmt : Nat → String) (shop : ShopInfo) :
    orderTotal o = (o.items.map (fun it => (it.qty : ℚ) * it.price)).sum ∧
    subtotalOf o = orderTotal o ∧
    grandTotalOf o = orderTotal o ∧
    (csvRow o).get? 7 = some (toFixed2 (orderTotal o)) ∧
    (toFixed2 (grandTotalOf o)).data <:+: (receiptHtml fmt shop o).data := by
  refine ⟨?_, rfl, rfl, rfl, ?_⟩
  · simpa [orderTotal] using
      foldl_add_map_sum (fun it : OrderItem => (it.qty : ℚ) * it.price) o.items 0
  · exact infix_data_middle
      (receiptHead ++ logoBlock shop ++ receiptMeta fmt shop o ++
        toFixed2 (subtotalOf o) ++ receiptBetweenTotals)
      (toFixed2 (grandTotalOf o)) receiptTail

-- ---------- C5 ----------

/-- **C5.** The visible subset is the pure conjunction of the status filter
(`All` passes everything), the type filter (`All` passes everything) and the
case-insensitive substring match of the trimmed query against the order id,
the customer name, or any item name; the surviving orders are sorted by
`createdAt` descending. -/
theorem filtered_view_characterization (orders : List Order) (sf tf q : String)
    (o : Order) :
    (o ∈ filteredOrders orders sf tf q ↔
      o ∈ orders ∧ (sf = "All" ∨ o.status = sf) ∧ (tf = "All" ∨ o.type = tf) ∧
        (q.trim.toLower = "" ∨
          (q.trim.toLower).data <:+: o.id.toLower.data ∨
          (q.trim.toLower).data <:+: o.customer.toLower.data ∨
          ∃ it ∈ o.items, (q.trim.toLower).data <:+: it.name.toLower.data)) ∧
    (filteredOrders orders sf tf q).Pairwise (fun a b => b.createdAt ≤ a.createdAt) := by
  constructor
  · by_cases hq : q.trim.toLower = ""
    · simp only [filteredOrders, List.mem_mergeSort, List.mem_filter, matchesQuery, hq,
        and_assoc]
      simp [hq]
      try tauto
    · simp only [filteredOrders, List.mem_mergeSort, List.mem_filter, matchesQuery, hq,
        strIncludes, List.any_eq_true, and_assoc]
      simp [hq]
      try tauto
  · have hs := @List.sorted_mergeSort Order
      (fun a b : Order => decide (b.createdAt ≤ a.createdAt))
      (fun a b c hab hbc => by
        simp only [decide_eq_true_eq] at *
        omega)
      (fun a b => by
        simp only [Bool.or_eq_true, decide_eq_true_eq]
        omega)
      (((orders.filter
          (fun o => sf == "All" || o.status == sf)).filter
          (fun o => tf == "All" || o.type == tf)).filter
          (matchesQuery (q.trim.toLower)))
    exact hs.imp (fun h => of_decide_eq_true h)

-- ---------- C7 ----------

/-- `charListLe` is transitive. -/
theorem charListLe_trans :
    ∀ a b c : List Char, charListLe a b = true → charListLe b c = true →
      charListLe a c = true := by
  intro a
  induction a with
  | nil => intro b c _ _; rfl
  | cons x xs ih =>
    intro b c hab hbc
    cases b with
    | nil => simp [charListLe] at hab
    | cons y ys =>
      cases c with
      | nil => simp [charListLe] at hbc
      | cons z zs =>
        simp only [charListLe] at hab hbc ⊢
        by_cases hxy : x < y
        · by_cases hyz : y < z
          · simp [lt_trans hxy hyz]
          · by_cases hzy : z < y
            · simp [hyz, hzy] at hbc
            · have hyz' : y = z := le_antisymm (not_lt.1 hzy) (not_lt.1 hyz)
              subst hyz'
              simp [hxy]
        · by_cases hyx : y < x
          · simp [hxy, hyx] at hab
          · have hxy' : x = y := le_antisymm (not_lt.1 hyx) (not_lt.1 hxy)
            subst hxy'
            simp [lt_irrefl] at hab
            by_cases hxz : x < z
            · simp [hxz]
            · by_cases hzx : z < x
              · simp [hxz, hzx] at hbc
              · have hxz' : x = z := le_antisymm (not_lt.1 hzx) (not_lt.1 hxz)
                subst hxz'
                simp [lt_irrefl] at hbc ⊢
                exact ih ys zs hab hbc

/-- `charListLe` is total. -/
theorem charListLe_total :
    ∀ a b : List Char, (charListLe a b || charListLe b a) = true := by
  intro a
  induction a with
  | nil => intro b; simp [charListLe]
  | cons x xs ih =>
    intro b
    cases b with
    | nil => simp [charListLe]
    | cons y ys =>
      simp only [charListLe]
      by_cases hxy : x < y
      · simp [hxy, asymm hxy]
      · by_cases hyx : y < x
        · simp [hxy, hyx]
        · have hxy' : x = y := le_antisymm (not_lt.1 hyx) (not_lt.1 hxy)
          subst hxy'
          have hx : ¬ x < x := lt_irrefl x
          simp only [if_neg hx]
          exact ih ys

/-- `charListLe` is antisymmetric. -/
theorem charListLe_antisymm :
    ∀ a b : List Char, charListLe a b = true → charListLe b a = true → a = b := by
  intro a
  induction a with
  | nil =>
    intro b _ hba
    cases b with
    | nil => rfl
    | cons y ys => simp [charListLe] at hba
  | cons x xs ih =>
    intro b hab hba
    cases b with
    | nil => simp [charListLe] at hab
    | cons y ys =>
      simp only [charListLe] at hab hba
      by_cases hxy : x < y
      · simp [asymm hxy, hxy] at hba
      · by_cases hyx : y < x
        · simp [hxy, hyx] at hab
        · have hxy' : x = y := le_antisymm (not_lt.1 hyx) (not_lt.1 hxy)
          subst hxy'
          simp [lt_irrefl] at hab hba
          rw [ih ys hab hba]

/-- Two strings with the same character data are equal. -/
theorem string_data_inj {a b : String} (h : a.data = b.data) : a = b := by
  cases a with
  | mk da =>
    cases b with
    | mk db => exact congrArg String.mk (by simpa using h)

/-- **C7.** `groupedByDay` emits its groups sorted by day key strictly
descending; each group's records are exactly the archive entries whose day
key matches, in archive (insertion) order, and each day total is the sum of
the per-order totals; `removeCompletedDay` removes exactly the records whose
day key (computed by the same formatter the grouping uses) matches. -/
theorem groupedByDay_sorted_and_removeDay (f : Nat → String)
    (completed : List CompletedRecord) (k : String) (st : AppState) :
    (groupedByDay f completed).Pairwise (fun g h => strLtB h.1 g.1 = true) ∧
    (∀ d recs, (d, recs) ∈ groupedByDay f completed →
        recs = completed.filter (fun r => f r.completedAt == d) ∧
        dayTotal recs = (recs.map (fun r => orderTotal r.toOrder)).sum) ∧
    (∀ r, r ∈ (removeCompletedDay f k st).completed ↔
        r ∈ st.completed ∧ f r.completedAt ≠ k) := by
  refine ⟨?_, ?_, ?_⟩
  · have hsorted :
        ((completed.map (fun r => f r.completedAt)).dedup.mergeSort
          (fun a b => strLeB b a)).Pairwise (fun a b => strLeB b a = true) :=
      List.sorted_mergeSort
        (fun a b c hab hbc => charListLe_trans c.data b.data a.data hbc hab)
        (fun a b => Bool.or_comm (charListLe b.data a.data) (charListLe a.data b.data) ▸
          charListLe_total b.data a.data)
        _
    have hnodup :
        ((completed.map (fun r => f r.completedAt)).dedup.mergeSort
          (fun a b => strLeB b a)).Nodup :=
      ((List.mergeSort_perm _ _).symm).nodup (List.nodup_dedup _)
    have hstrict :
        ((completed.map (fun r => f r.completedAt)).dedup.mergeSort
          (fun a b => strLeB b a)).Pairwise (fun a b => strLtB b a = true) := by
      refine (hsorted.and hnodup).imp ?_
      intro a b hab
      rcases hab with ⟨hle, hne⟩
      have hnot : strLeB a b = false := by
        by_contra hcontra
        have h1 : strLeB a b = true := by
          cases h : strLeB a b
          · exact absurd h hcontra
          · rfl
        exact hne (string_data_inj (charListLe_antisymm a.data b.data h1 hle))
      simp [strLtB, hnot]
    unfold groupedByDay
    rw [List.pairwise_map]
    exact hstrict
  · intro d recs hmem
    unfold groupedByDay at hmem
    rw [List.mem_map] at hmem
    rcases hmem with ⟨d', _, heq⟩
    rcases Prod.mk.injEq .. ▸ heq with ⟨hd, hr⟩
    subst hd
    refine ⟨hr.symm, ?_⟩
    rw [show dayTotal recs = recs.foldl (fun s r => s + orderTotal r.toOrder) 0 from rfl,
      foldl_add_map_sum (fun r : CompletedRecord => orderTotal r.toOrder) recs 0]
    simp
  · intro r
    simp [removeCompletedDay, List.mem_filter]

/-- Witness for C7 at a concrete one-record archive: the group for its day is
present, holds exactly that record, and its total is the summed order total. -/
theorem groupedByDay_sorted_and_removeDay_witness :
    (("d", [sampleRec]) ∈ groupedByDay (fun _ => "d") [sampleRec]) ∧
    [sampleRec] = [sampleRec].filter (fun r => ((fun _ : Nat => "d") r.completedAt) == "d") ∧
    dayTotal [sampleRec] = ([sampleRec].map (fun r => orderTotal r.toOrder)).sum := by
  have hmem : ("d", [sampleRec]) ∈ groupedByDay (fun _ => "d") [sampleRec] := by
    simp [groupedByDay]
  have h := (groupedByDay_sorted_and_removeDay (fun _ => "d") [sampleRec] "x"
      ⟨[], []⟩).2.1 "d" [sampleRec] hmem
  exact ⟨hmem, h.1, h.2⟩

-- ---------- C2 ----------

/-- Patching the orders whose id matches `i` commutes with finding the first
order whose id matches `i`, provided the patch preserves ids. -/
theorem find?_map_patchKey (i : String) (p : Order → Order)
    (hp : ∀ o, (p o).id = o.id) :
    ∀ l : List Order,
      (l.map (fun o => if o.id == i then p o else o)).find? (fun o => o.id == i) =
        (l.find? (fun o => o.id == i)).map p := by
  intro l
  induction l with
  | nil => rfl
  | cons x xs ih =>
    rw [List.map_cons]
    by_cases h : x.id = i
    · rw [show (if x.id == i then p x else x) = p x by simp [h]]
      rw [List.find?_cons_of_pos _ (by simp [hp x, h]),
        List.find?_cons_of_pos _ (by simp [h])]
      rfl
    · rw [show (if x.id == i then p x else x) = x by simp [h]]
      rw [List.find?_cons_of_neg _ (by simp [h]),
        List.find?_cons_of_neg _ (by simp [h]), ih]

/-- **C2.** The archived snapshot is independent of later live-order
mutation: a patch that does not change the status leaves the whole archive
unchanged, and once an id is archived, any upsert of an order with that id
and any patch keyed by that id leave the archive unchanged. -/
theorem archived_snapshot_immutable (i : String) (p : Order → Order) (t : Nat)
    (st : AppState) (order : Order) :
    ((∀ o, (p o).id = o.id) → (∀ o, (p o).status = o.status) →
        (patchOrder i p t st).completed = st.completed) ∧
    ((∃ r ∈ st.completed, r.id = order.id) →
        (upsertOrder order t st).completed = st.completed) ∧
    ((∃ r ∈ st.completed, r.id = i) →
        (patchOrder i p t st).completed = st.completed) := by
  refine ⟨?_, ?_, ?_⟩
  · intro hid hstat
    simp only [patchOrder]
    rw [find?_map_patchKey i p hid st.orders]
    cases hfind : st.orders.find? (fun o => o.id == i) with
    | none => rfl
    | some b =>
      show (if ¬b.status = (p b).status ∧ (p b).status == "Delivered" then
            ({ orders := st.orders.map (fun o => if o.id == i then p o else o),
               completed := addCompleted (p b) t st.completed } : AppState)
          else
            { orders := st.orders.map (fun o => if o.id == i then p o else o),
              completed := st.completed }).completed = st.completed
      rw [if_neg (by simp [hstat b])]
  · rintro ⟨r, hr, hrid⟩
    have hany : st.completed.any (fun o => o.id == order.id) = true :=
      List.any_eq_true.2 ⟨r, hr, by simp [hrid]⟩
    simp only [upsertOrder]
    cases hidx : st.orders.findIdx? (fun o => o.id == order.id) with
    | none => simp only [addCompleted, hany, if_true]; split <;> rfl
    | some idx => simp only [addCompleted, hany, if_true]; split <;> rfl
  · rintro ⟨r, hr, hrid⟩
    simp only [patchOrder]
    cases hfind2 : (st.orders.map (fun o => if o.id == i then p o else o)).find?
        (fun o => o.id == i) with
    | none =>
      cases hfind : st.orders.find? (fun o => o.id == i) with
      | none => rfl
      | some b => rfl
    | some a =>
      have ha : a.id = i := by
        have := List.find?_some hfind2
        simpa using this
      have hany : st.completed.any (fun o => o.id == a.id) = true :=
        List.any_eq_true.2 ⟨r, hr, by simp [hrid, ha]⟩
      cases hfind : st.orders.find? (fun o => o.id == i) with
      | none => rfl
      | some b =>
        show (if ¬b.status = a.status ∧ a.status == "Delivered" then
            ({ orders := st.orders.map (fun o => if o.id == i then p o else o),
               completed := addCompleted a t st.completed } : AppState)
          else
            { orders := st.orders.map (fun o => if o.id == i then p o else o),
              completed := st.completed }).completed = st.completed
        split
        · simp [addCompleted, hany]
        · rfl

/-- Witness for C2 at concrete data: patching a non-status field of an
archived order, or re-upserting it, leaves the one-record archive
unchanged. -/
theorem archived_snapshot_immutable_witness :
    (patchOrder "ord_1" (fun o => { o with assigned := "T2" }) 9
      ⟨[sampleOrder], [sampleRec]⟩).completed = [sampleRec] ∧
    (upsertOrder sampleOrder 9 ⟨[sampleOrder], [sampleRec]⟩).completed = [sampleRec] := by
  have h := archived_snapshot_immutable "ord_1" (fun o => { o with assigned := "T2" }) 9
    ⟨[sampleOrder], [sampleRec]⟩ sampleOrder
  exact ⟨h.1 (fun o => rfl) (fun o => rfl), h.2.1 ⟨sampleRec, by simp, rfl⟩⟩

-- ---------- C1 ----------

/-- A status patch on a state whose head order carries the patched id, and
whose remaining orders do not: only the head is rewritten, and the archive
gains a record exactly when the head's status changes to Delivered. -/
theorem updateStatus_cons_fresh (i s : String) (t : Nat) (hd : Order)
    (os : List Order) (cs : List CompletedRecord)
    (hhd : hd.id = i) (hos : ∀ x ∈ os, x.id ≠ i) :
    updateStatus i s t ⟨hd :: os, cs⟩ =
      { orders := { hd with status := s } :: os,
        completed :=
          if ¬hd.status = s ∧ s == "Delivered"
          then addCompleted { hd with status := s } t cs else cs } := by
  have hmap : os.map (fun o => if o.id == i then { o with status := s } else o) = os := by
    calc os.map (fun o => if o.id == i then { o with status := s } else o)
        = os.map id := List.map_congr_left (fun x hx => by simp [hos x hx])
      _ = os := List.map_id os
  simp only [updateStatus, patchOrder, List.map_cons, hmap]
  rw [show (if hd.id == i then ({ hd with status := s } : Order) else hd) =
      { hd with status := s } by simp [hhd]]
  rw [List.find?_cons_of_pos _ (by simp [hhd]),
    List.find?_cons_of_pos _ (by simp [hhd])]
  split
  · rename_i b a hb ha
    cases Option.some.inj hb
    cases Option.some.inj ha
    simp
    split <;> simp_all
  · rename_i h
    exact (h _ _ rfl rfl).elim

/-- **C1.** An archive record is created exactly once per order id:
re-recording an already-archived id leaves the archive unchanged; inserting a
new order already Delivered archives it; and the status trajectory
Pending→Preparing→Delivered→Pending→Delivered on a fresh order produces
exactly one archive record for its id. -/
theorem archive_record_exactly_once (o : Order) (os : List Order)
    (cs : List CompletedRecord) (t0 t1 t2 t3 t4 : Nat) (order : Order)
    (nowT : Nat) (completed : List CompletedRecord) (st : AppState) :
    ((∃ r ∈ completed, r.id = order.id) →
        addCompleted order nowT completed = completed) ∧
    (st.orders.findIdx? (fun x => x.id == order.id) = none →
        order.status = "Delivered" →
        (upsertOrder order nowT st).completed = addCompleted order nowT st.completed) ∧
    (o.status = "Pending" → (∀ x ∈ os, x.id ≠ o.id) → (∀ r ∈ cs, r.id ≠ o.id) →
      ((updateStatus o.id "Delivered" t4
        (updateStatus o.id "Pending" t3
          (updateStatus o.id "Delivered" t2
            (updateStatus o.id "Preparing" t1
              (upsertOrder o t0 ⟨os, cs⟩))))).completed.countP
        (fun r => r.id == o.id)) = 1) := by
  refine ⟨?_, ?_, ?_⟩
  · rintro ⟨r, hr, hrid⟩
    have hany : completed.any (fun x => x.id == order.id) = true :=
      List.any_eq_true.2 ⟨r, hr, by simp [hrid]⟩
    simp [addCompleted, hany]
  · intro hidx hdel
    simp [upsertOrder, hidx, hdel]
  · intro hstat hos hcs
    have hidx : os.findIdx? (fun x => x.id == o.id) = none :=
      List.findIdx?_eq_none_iff.2 (fun x hx => by simp [hos x hx])
    have h0 : upsertOrder o t0 ⟨os, cs⟩ = ⟨o :: os, cs⟩ := by
      simp only [upsertOrder, hidx]
      rw [if_neg (by simp [hstat])]
    rw [h0]
    have h1 : updateStatus o.id "Preparing" t1 ⟨o :: os, cs⟩ =
        ⟨{ o with status := "Preparing" } :: os, cs⟩ := by
      rw [updateStatus_cons_fresh o.id "Preparing" t1 o os cs rfl hos]
      rw [if_neg (fun h => absurd h.2 (by decide))]
    rw [h1]
    have hanyf : cs.any (fun r => r.id == o.id) = false :=
      List.any_eq_false.2 (fun r hr => by simp [hcs r hr])
    have h2 : updateStatus o.id "Delivered" t2
        ⟨{ o with status := "Preparing" } :: os, cs⟩ =
        ⟨{ o with status := "Delivered" } :: os,
         { toOrder := { o with status := "Delivered" }, completedAt := t2 } :: cs⟩ := by
      rw [updateStatus_cons_fresh o.id "Delivered" t2 { o with status := "Preparing" }
        os cs rfl hos]
      rw [if_pos ⟨by simp, by decide⟩]
      simp [addCompleted, hanyf]
    rw [h2]
    have h3 : updateStatus o.id "Pending" t3
        ⟨{ o with status := "Delivered" } :: os,
         { toOrder := { o with status := "Delivered" }, completedAt := t2 } :: cs⟩ =
        ⟨{ o with status := "Pending" } :: os,
         { toOrder := { o with status := "Delivered" }, completedAt := t2 } :: cs⟩ := by
      rw [updateStatus_cons_fresh o.id "Pending" t3 { o with status := "Delivered" }
        os _ rfl hos]
      rw [if_neg (fun h => absurd h.2 (by decide))]
    rw [h3]
    have hany2 : ({ toOrder := { o with status := "Delivered" }, completedAt := t2 } ::
        cs : List CompletedRecord).any (fun r => r.id == o.id) = true := by
      simp
    have h4 : updateStatus o.id "Delivered" t4
        ⟨{ o with status := "Pending" } :: os,
         { toOrder := { o with status := "Delivered" }, completedAt := t2 } :: cs⟩ =
        ⟨{ o with status := "Delivered" } :: os,
         { toOrder := { o with status := "Delivered" }, completedAt := t2 } :: cs⟩ := by
      rw [updateStatus_cons_fresh o.id "Delivered" t4 { o with status := "Pending" }
        os _ rfl hos]
      rw [if_pos ⟨by simp, by decide⟩]
      simp [addCompleted, hany2]
    rw [h4]
    have hzero : cs.countP (fun r => r.id == o.id) = 0 :=
      List.countP_eq_zero.2 (fun r hr => by simp [hcs r hr])
    show List.countP (fun r => r.id == o.id)
      ({ toOrder := { o with status := "Delivered" }, completedAt := t2 } :: cs) = 1
    rw [List.countP_cons]
    simp [hzero]

/-- Witness for C1: running the §8 status trajectory on the concrete sample
order from the empty state leaves exactly one archive record for its id. -/
theorem archive_record_exactly_once_witness :
    ((updateStatus sampleOrder.id "Delivered" 4
      (updateStatus sampleOrder.id "Pending" 3
        (updateStatus sampleOrder.id "Delivered" 2
          (updateStatus sampleOrder.id "Preparing" 1
            (upsertOrder sampleOrder 0 ⟨[], []⟩))))).completed.countP
      (fun r => r.id == sampleOrder.id)) = 1 :=
  (archive_record_exactly_once sampleOrder [] [] 0 1 2 3 4 sampleOrder 0 []
    ⟨[], []⟩).2.2 rfl (by simp) (by simp)

-- ---------- C6 ----------

/-- Natural-number translation of `Math.ceil(n / 6)`. -/
theorem nat_ceil_div_six (n : ℕ) : ((n + 5) / 6 : ℕ) = Nat.ceil ((n : ℚ) / 6) := by
  apply le_antisymm
  · have hc : (n : ℚ) / 6 ≤ ((Nat.ceil ((n : ℚ) / 6) : ℕ) : ℚ) := Nat.le_ceil _
    have hn : (n : ℚ) ≤ ((Nat.ceil ((n : ℚ) / 6) : ℕ) : ℚ) * 6 := by
      rwa [div_le_iff (by norm_num)] at hc
    have hn' : n ≤ Nat.ceil ((n : ℚ) / 6) * 6 := by exact_mod_cast hn
    have h := Nat.div_add_mod (n + 5) 6
    have h2 : (n + 5) % 6 < 6 := Nat.mod_lt _ (by omega)
    omega
  · rw [Nat.ceil_le]
    rw [div_le_iff (by norm_num)]
    have h := Nat.div_add_mod (n + 5) 6
    have h2 : (n + 5) % 6 < 6 := Nat.mod_lt _ (by omega)
    have : n ≤ ((n + 5) / 6) * 6 := by omega
    exact_mod_cast this

/-- **C6 (amended).** `totalPages` is `max 1 ⌈filteredCount / 6⌉`; changing
the query, the status filter or the type filter resets the page to 1; and the
Prev/Next buttons keep the page inside `[1, totalPages]` whenever it starts
there.  (Store mutations do not re-clamp the page; see the counterexample.) -/
theorem pagination_behavior_amended (st : UIState) (s t q : String) :
    dashTotalPages st = max 1 (Nat.ceil (((dashFiltered st).length : ℚ) / 6)) ∧
    (uiStep (UIEvent.setQuery q) st).page = 1 ∧
    (uiStep (UIEvent.setStatusFilter s) st).page = 1 ∧
    (uiStep (UIEvent.setTypeFilter t) st).page = 1 ∧
    (1 ≤ st.page → st.page ≤ dashTotalPages st →
      1 ≤ (uiStep UIEvent.prevPage st).page ∧
      (uiStep UIEvent.prevPage st).page ≤ dashTotalPages (uiStep UIEvent.prevPage st) ∧
      1 ≤ (uiStep UIEvent.nextPage st).page ∧
      (uiStep UIEvent.nextPage st).page ≤ dashTotalPages (uiStep UIEvent.nextPage st)) := by
  refine ⟨?_, rfl, rfl, rfl, ?_⟩
  · rw [show dashTotalPages st =
        max 1 (((dashFiltered st).length + 5) / 6) from rfl, nat_ceil_div_six]
  · intro h1 h2
    have hone : 1 ≤ dashTotalPages st := le_max_left 1 _
    constructor
    · by_cases hp : st.page ≤ 1 <;> simp [uiStep, hp] <;> omega
    constructor
    · by_cases hp : st.page ≤ 1
      · simpa [uiStep, hp] using h2
      · have hsame : dashTotalPages { st with page := max 1 (st.page - 1) } =
            dashTotalPages st := rfl
        simp only [uiStep, hp, if_false]
        rw [hsame]
        omega
    constructor
    · by_cases hp : st.page ≥ dashTotalPages st <;> simp [uiStep, hp] <;> omega
    · by_cases hp : st.page ≥ dashTotalPages st
      · simpa [uiStep, hp] using h2
      · have hsame : dashTotalPages
            { st with page := min (dashTotalPages st) (st.page + 1) } =
            dashTotalPages st := rfl
        simp only [uiStep, hp, if_false]
        rw [hsame]
        omega

/-- Witness for C6 (amended) at the start state: the page starts inside the
valid range, a query change resets it to 1, and Next keeps it at least 1. -/
theorem pagination_behavior_amended_witness :
    (1 ≤ uiInit.page ∧ uiInit.page ≤ dashTotalPages uiInit) ∧
    (uiStep (UIEvent.setQuery "x") uiInit).page = 1 ∧
    1 ≤ (uiStep UIEvent.nextPage uiInit).page := by
  have htp : dashTotalPages uiInit = 1 := by
    simp [dashTotalPages, dashFiltered, filteredOrders, totalPagesOf, perPage, uiInit]
  have h := pagination_behavior_amended uiInit "Pending" "Takeaway" "x"
  have hrange : 1 ≤ uiInit.page ∧ uiInit.page ≤ dashTotalPages uiInit := by
    rw [htp]
    exact ⟨le_refl 1, le_refl 1⟩
  exact ⟨hrange, h.2.1, (h.2.2.2.2 hrange.1 hrange.2).2.2.1⟩

/-- **C6 (counterexample).** The claim "the current page always clamps to
`[1, totalPages]`" fails: seven creations, one Next click and one deletion
leave the dashboard on page 2 of 1 — deleting an order shrinks the result
set without re-clamping the page. -/
theorem trim_toLower_empty : "".trim.toLower = "" := by
  have h1 : "".trim = "" := by
    show String.trim "" = ""
    simp only [String.trim, Substring.trim, String.toSubstring]
    rw [Substring.takeWhileAux.eq_def]
    simp only [String.endPos, String.utf8ByteSize]
    norm_num
    rw [Substring.takeRightWhileAux.eq_def]
    norm_num
    rfl
  have h2 : "".toLower = "" := by
    show String.toLower "" = ""
    simp only [String.toLower, String.map]
    rw [String.mapAux.eq_def]
    simp [String.atEnd]
    intro h
    exact absurd rfl h
  rw [h1, h2]

theorem page_not_clamped_after_delete :
    (uiRun demoEvents uiInit).page = 2 ∧
    dashTotalPages (uiRun demoEvents uiInit) = 1 := by
  have h7 : uiRun demoEvents uiInit =
      uiStep (UIEvent.deleteOrd "a") (uiStep UIEvent.nextPage demoMid) := rfl
  have hq : demoMid.query.trim.toLower = "" := trim_toLower_empty
  have hlen7 : (dashFiltered demoMid).length = 7 := by
    simp only [dashFiltered, filteredOrders]
    rw [List.length_mergeSort, hq]
    rfl
  have htp7 : dashTotalPages demoMid = 2 := by
    simp only [dashTotalPages]
    rw [hlen7]
    rfl
  have hnext : uiStep UIEvent.nextPage demoMid = { demoMid with page := 2 } := by
    show (if demoMid.page ≥ dashTotalPages demoMid then demoMid
      else { demoMid with page := min (dashTotalPages demoMid) (demoMid.page + 1) }) =
      { demoMid with page := 2 }
    rw [htp7]
    rfl
  rw [h7, hnext]
  have hq2 : (uiStep (UIEvent.deleteOrd "a")
      { demoMid with page := 2 }).query.trim.toLower = "" := trim_toLower_empty
  have hlen6 : (dashFiltered (uiStep (UIEvent.deleteOrd "a")
      { demoMid with page := 2 })).length = 6 := by
    simp only [dashFiltered, filteredOrders]
    rw [List.length_mergeSort, hq2]
    rfl
  refine ⟨rfl, ?_⟩
  simp only [dashTotalPages]
  rw [hlen6]
  rfl

-- ---------- C9 ----------

/-- `replaceAllC` distributes over list append. -/
theorem replaceAllC_append (l₁ l₂ : List Char) (c : Char) (r : List Char) :
    replaceAllC (l₁ ++ l₂) c r = replaceAllC l₁ c r ++ replaceAllC l₂ c r := by
  induction l₁ with
  | nil => rfl
  | cons x xs ih => simp [replaceAllC, ih]

/-- One head step of the five chained replaces equals the per-character
entity expansion of the head. -/
theorem escChain_cons (c : Char) (cs : List Char) :
    replaceAllC (replaceAllC (replaceAllC (replaceAllC
      (replaceAllC (c :: cs) '&' "&amp;".data) '<' "&lt;".data)
      '>' "&gt;".data) '"' "&quot;".data) '\'' "&#039;".data =
    htmlEntity c ++
      replaceAllC (replaceAllC (replaceAllC (replaceAllC
        (replaceAllC cs '&' "&amp;".data) '<' "&lt;".data)
        '>' "&gt;".data) '"' "&quot;".data) '\'' "&#039;".data := by
  by_cases h1 : c = '&'
  · subst h1
    simp [replaceAllC, replaceAllC_append, htmlEntity]
  by_cases h2 : c = '<'
  · subst h2
    simp [replaceAllC, replaceAllC_append, htmlEntity, h1]
  by_cases h3 : c = '>'
  · subst h3
    simp [replaceAllC, replaceAllC_append, htmlEntity, h1, h2]
  by_cases h4 : c = '"'
  · subst h4
    simp [replaceAllC, replaceAllC_append, htmlEntity, h1, h2, h3]
  by_cases h5 : c = '\''
  · subst h5
    simp [replaceAllC, replaceAllC_append, htmlEntity, h1, h2, h3, h4]
  · simp [replaceAllC, replaceAllC_append, htmlEntity, h1, h2, h3, h4, h5]

/-- The five chained global replaces of `escapeHtml` amount to the
per-character entity expansion. -/
theorem escapeHtml_eq_expand (s : String) :
    escapeHtml s = String.mk (expandEntities s.data) := by
  refine congrArg String.mk ?_
  generalize s.data = l
  induction l with
  | nil => rfl
  | cons c cs ih =>
    rw [escChain_cons, ih]
    rfl

/-- No entity expansion of a single character contains a raw special. -/
theorem htmlEntity_no_specials (c : Char) :
    '<' ∉ htmlEntity c ∧ '>' ∉ htmlEntity c ∧
    '"' ∉ htmlEntity c ∧ '\'' ∉ htmlEntity c := by
  unfold htmlEntity
  split_ifs with h1 h2 h3 h4 h5
  · decide
  · decide
  · decide
  · decide
  · decide
  · refine ⟨?_, ?_, ?_, ?_⟩ <;> simp only [List.mem_singleton]
    · exact fun hh => h2 hh.symm
    · exact fun hh => h3 hh.symm
    · exact fun hh => h4 hh.symm
    · exact fun hh => h5 hh.symm


/-- `escapeHtml` output never contains a raw angle bracket or quote. -/
theorem escapeHtml_no_specials (s : String) :
    '<' ∉ (escapeHtml s).data ∧ '>' ∉ (escapeHtml s).data ∧
    '"' ∉ (escapeHtml s).data ∧ '\'' ∉ (escapeHtml s).data := by
  rw [escapeHtml_eq_expand]
  show '<' ∉ expandEntities s.data ∧ '>' ∉ expandEntities s.data ∧
    '"' ∉ expandEntities s.data ∧ '\'' ∉ expandEntities s.data
  generalize s.data = l
  induction l with
  | nil => simp [expandEntities]
  | cons c cs ih =>
    have h := htmlEntity_no_specials c
    simp only [expandEntities, List.mem_append]
    push_neg
    exact ⟨⟨h.1, ih.1⟩, ⟨h.2.1, ih.2.1⟩, ⟨h.2.2.1, ih.2.2.1⟩, h.2.2.2, ih.2.2.2⟩

/-- The shop logo text is embedded verbatim in the receipt whenever a logo
is present. -/
theorem logo_data_infix_receipt (fmt : Nat → String) (shop : ShopInfo)
    (order : Order) (hlogo : shop.logo ≠ "") :
    shop.logo.data <:+: (receiptHtml fmt shop order).data := by
  have h1 : shop.logo.data <:+: (logoBlock shop).data := by
    unfold logoBlock
    rw [if_pos (by simpa using hlogo)]
    exact infix_data_middle "<img src=\"" shop.logo
      "\" alt=\"logo\" style=\"max-width:140px;height:auto;display:block;margin:0 auto 8px;\" />"
  have h2 : (logoBlock shop).data <:+: (receiptHtml fmt shop order).data := by
    refine ⟨receiptHead.data,
      (receiptMeta fmt shop order).data ++ (toFixed2 (subtotalOf order)).data ++
        receiptBetweenTotals.data ++ (toFixed2 (grandTotalOf order)).data ++
        receiptTail.data, ?_⟩
    simp [receiptHtml, List.append_assoc]
  exact h1.trans h2

/-- **C9 (amended).** `escapeHtml` replaces `& < > " '` by entities (it is the
per-character entity expansion) and its output never contains a raw angle
bracket or quote, so the fields routed through it cannot inject markup; but
the shop logo is NOT escaped: whenever present, its raw text is embedded
verbatim in the `img src` attribute of the receipt. -/
theorem receipt_escaping_amended (s : String) (fmt : Nat → String)
    (shop : ShopInfo) (order : Order) :
    escapeHtml s = String.mk (expandEntities s.data) ∧
    ('<' ∉ (escapeHtml s).data ∧ '>' ∉ (escapeHtml s).data ∧
      '"' ∉ (escapeHtml s).data ∧ '\'' ∉ (escapeHtml s).data) ∧
    (shop.logo ≠ "" → shop.logo.data <:+: (receiptHtml fmt shop order).data) :=
  ⟨escapeHtml_eq_expand s, escapeHtml_no_specials s,
    fun h => logo_data_infix_receipt fmt shop order h⟩

/-- Witness for C9 (amended) at the concrete malicious shop profile. -/
theorem receipt_escaping_amended_witness :
    badShop.logo ≠ "" ∧
    badShop.logo.data <:+: (receiptHtml (fun _ => "now") badShop sampleOrder).data :=
  ⟨by decide,
    (receipt_escaping_amended "x" (fun _ => "now") badShop sampleOrder).2.2 (by decide)⟩

/-- **C9 (counterexample).** The claim that every user-supplied field
(including the shop logo) is HTML-escaped fails: with a logo whose text
carries a script tag, the rendered receipt contains the raw `<script>`
markup, although the escaped form of that very value contains no raw `<`
at all. -/
theorem receipt_logo_unescaped_injection :
    "<script>alert(1)</script>".data <:+:
      (receiptHtml (fun _ => "now") badShop sampleOrder).data ∧
    '<' ∉ (escapeHtml badShop.logo).data := by
  constructor
  · have h1 : "<script>alert(1)</script>".data <:+: badShop.logo.data := by decide
    exact h1.trans
      (logo_data_infix_receipt (fun _ => "now") badShop sampleOrder (by decide))
  · exact (escapeHtml_no_specials badShop.logo).1
